import Mathlib

/-!
Verification of the core of the `ray-tracer-challenge` Rust repository
against its natural-language specification.

The Rust code computes with `f64`; the shallow embedding uses exact
rationals (`ℚ`) for all arithmetic.  The square-root function (used by
`Tuple::magnitude`, `Tuple::normalize` and `Sphere::intersect`) is not
rational-valued, so every definition that the source routes through
`f64::sqrt` takes the square-root function `sq : ℚ → ℚ` as an explicit
parameter; theorems either hold for every `sq`, or carry hypotheses that
pin `sq` down exactly at the (perfect-square) inputs it is applied to,
or bracket it by rational bounds.
-/

namespace RayTracer

/-- `Tuple` from src/tuple.rs: 4 floats (x, y, z, w). -/
structure Tuple where
  x : ℚ
  y : ℚ
  z : ℚ
  w : ℚ
deriving DecidableEq, Repr

namespace Tuple

def point (x y z : ℚ) : Tuple := ⟨x, y, z, 1⟩

def vector (x y z : ℚ) : Tuple := ⟨x, y, z, 0⟩

def color (r g b : ℚ) : Tuple := ⟨r, g, b, 0⟩

/-- `Tuple::magnitude`: sqrt of the sum of squares of x, y, z (w excluded).
`sq` stands for `f64::sqrt`. -/
def magnitude (sq : ℚ → ℚ) (t : Tuple) : ℚ :=
  sq (t.x * t.x + t.y * t.y + t.z * t.z)

/-- `Tuple::normalize`: divides all four components by the magnitude. -/
def normalize (sq : ℚ → ℚ) (t : Tuple) : Tuple :=
  ⟨t.x / t.magnitude sq, t.y / t.magnitude sq, t.z / t.magnitude sq, t.w / t.magnitude sq⟩

/-- `Tuple::dot`: sums all four component products. -/
def dot (a b : Tuple) : ℚ :=
  a.x * b.x + a.y * b.y + a.z * b.z + a.w * b.w

/-- `Tuple::hadamard`: elementwise product of all four components. -/
def hadamard (a b : Tuple) : Tuple :=
  ⟨a.x * b.x, a.y * b.y, a.z * b.z, a.w * b.w⟩

instance : Add Tuple := ⟨fun a b => ⟨a.x + b.x, a.y + b.y, a.z + b.z, a.w + b.w⟩⟩
instance : Sub Tuple := ⟨fun a b => ⟨a.x - b.x, a.y - b.y, a.z - b.z, a.w - b.w⟩⟩
instance : Neg Tuple := ⟨fun a => ⟨-a.x, -a.y, -a.z, -a.w⟩⟩

/-- `impl Mul<f64> for Tuple`: scalar multiplication. -/
def smul (a : Tuple) (k : ℚ) : Tuple := ⟨a.x * k, a.y * k, a.z * k, a.w * k⟩

/-- `impl PartialEq for Tuple`: component-wise comparison with tolerance 1e-5
(strict `<` on each absolute difference, as in src/tuple.rs). -/
def approx (a b : Tuple) : Prop :=
  |a.x - b.x| < 1e-5 ∧ |a.y - b.y| < 1e-5 ∧ |a.z - b.z| < 1e-5 ∧ |a.w - b.w| < 1e-5

instance (a b : Tuple) : Decidable (a.approx b) := by
  unfold approx; infer_instance

end Tuple

/-- Modelled from the spec: `tuple::reflect` is called by
`Material::lightning` (src/material.rs) but its definition is not in src/.
The spec gives `reflect(v, n) = v − n*2*(v·n)`. -/
def reflect (v n : Tuple) : Tuple :=
  v - n.smul (2 * v.dot n)

/-- `Matrix` from src/matrix.rs: square matrix as a flat row-major list. -/
structure Matrix where
  dim : ℕ
  elems : List ℚ
deriving DecidableEq, Repr

namespace Matrix

def from_vector (d : ℕ) (e : List ℚ) : Matrix := ⟨d, e⟩

/-- `Matrix::at`: row-major indexing `elems[r*dim + c]` (named `entry` here
because `at` is reserved in Lean).  The Rust code panics out of bounds;
all uses in the claims are in bounds, so out-of-bounds reads default to 0. -/
def entry (m : Matrix) (r c : ℕ) : ℚ :=
  m.elems.getD (r * m.dim + c) 0

/-- `Matrix::identity`: the fixed 4×4 identity. -/
def identity : Matrix :=
  from_vector 4 [1, 0, 0, 0, 0, 1, 0, 0, 0, 0, 1, 0, 0, 0, 0, 1]

/-- `Matrix::tuple_prod` (valid for dim = 4, per the source assert). -/
def tuple_prod (m : Matrix) (t : Tuple) : Tuple :=
  let dotRow : ℕ → ℚ := fun r =>
    m.entry r 0 * t.x + m.entry r 1 * t.y + m.entry r 2 * t.z + m.entry r 3 * t.w
  ⟨dotRow 0, dotRow 1, dotRow 2, dotRow 3⟩

/-- `Matrix::transpose`. -/
def transpose (m : Matrix) : Matrix :=
  from_vector m.dim
    (((List.range m.dim).map fun r => (List.range m.dim).map fun c => m.entry c r).flatten)

/-- `Matrix::submatrix(row, col)`: keep cell (r, c) iff r ≠ row and c ≠ col. -/
def submatrix (m : Matrix) (row col : ℕ) : Matrix :=
  from_vector (m.dim - 1)
    (((List.range m.dim).map fun r =>
        (List.range m.dim).filterMap fun c =>
          if r ≠ row ∧ c ≠ col then some (m.entry r c) else none).flatten)

/-- `Matrix::det`, with the mutual recursion through
`cofactor`/`minor`/`submatrix` unrolled on a fuel argument (the dimension
strictly decreases at each recursive call, so fuel `m.dim` suffices).
The row-0 cofactor sign in the source is `if row + col % 2 == 0`, which with
`row = 0` reduces to `col % 2 == 0`. -/
def detFuel : ℕ → Matrix → ℚ
  | 0, _ => 0
  | n + 1, m =>
    if m.dim = 2 then
      m.entry 0 0 * m.entry 1 1 - m.entry 0 1 * m.entry 1 0
    else
      (((List.range m.dim).map fun c =>
        m.entry 0 c *
          (if 0 + c % 2 = 0 then detFuel n (m.submatrix 0 c)
           else -(detFuel n (m.submatrix 0 c))))).sum

def det (m : Matrix) : ℚ := detFuel m.dim m

/-- `Matrix::minor`: determinant of the submatrix. -/
def minor (m : Matrix) (row col : ℕ) : ℚ := (m.submatrix row col).det

/-- `Matrix::cofactor`, exactly as written in src/matrix.rs line 76:
`if row + col % 2 == 0`, which by Rust operator precedence is
`row + (col % 2) == 0`. -/
def cofactor (m : Matrix) (row col : ℕ) : ℚ :=
  if row + col % 2 = 0 then m.minor row col else -(m.minor row col)

/-- The mathematical checkerboard cofactor, sign `(−1)^(row+col)`,
as the spec states `cofactor` should behave. -/
def cofactorSpec (m : Matrix) (row col : ℕ) : ℚ :=
  if (row + col) % 2 = 0 then m.minor row col else -(m.minor row col)

/-- Modelled from the spec: `Matrix::inverse` is called by the code
(src/sphere.rs) and by the tests, but its definition is not in src/.
The spec defines it by the adjugate method: the transposed cofactor matrix
divided by the determinant, with the checkerboard cofactor sign
`(−1)^(row+col)`. -/
def inverse (m : Matrix) : Matrix :=
  from_vector m.dim
    (((List.range m.dim).map fun r =>
        (List.range m.dim).map fun c => m.cofactorSpec c r / m.det).flatten)

/-- `M` composed with the modelled `M.inverse` is the identity on tuples:
the executable meaning of "the transform is invertible" used below.
A genuinely invertible matrix satisfies this, since the adjugate formula
then yields its true inverse. -/
def invertible (m : Matrix) : Prop :=
  ∀ t : Tuple, m.tuple_prod (m.inverse.tuple_prod t) = t

end Matrix

/-- A concrete function standing in for `f64::sqrt` when theorems with a
`sq` parameter are instantiated: it returns the exact square root at every
input a witness applies it to (0, 1, 4, 16, 25, 100), and a correctly
rounded value at 281. -/
def sqrtQ (x : ℚ) : ℚ :=
  if x = 0 then 0
  else if x = 1 then 1
  else if x = 4 then 2
  else if x = 16 then 4
  else if x = 25 then 5
  else if x = 100 then 10
  else if x = 281 then 1676305 / 100000
  else 0

/-- `transformation::scaling` from src/transformation.rs. -/
def scaling (x y z : ℚ) : Matrix :=
  Matrix.from_vector 4 [x, 0, 0, 0, 0, y, 0, 0, 0, 0, z, 0, 0, 0, 0, 1]

/-- `transformation::translation` from src/transformation.rs. -/
def translation (x y z : ℚ) : Matrix :=
  Matrix.from_vector 4 [1, 0, 0, x, 0, 1, 0, y, 0, 0, 1, z, 0, 0, 0, 1]

/-- `Ray` from src/ray.rs. -/
structure Ray where
  origin : Tuple
  direction : Tuple
deriving DecidableEq, Repr

namespace Ray

/-- `Ray::position(t) = origin + direction * t`. -/
def position (r : Ray) (t : ℚ) : Tuple := r.origin + r.direction.smul t

/-- `Ray::transform(m)`: maps origin and direction through `m`. -/
def transform (r : Ray) (m : Matrix) : Ray :=
  ⟨m.tuple_prod r.origin, m.tuple_prod r.direction⟩

end Ray

/-- `PointLight` from src/lights.rs. -/
structure PointLight where
  intensity : Tuple
  position : Tuple
deriving DecidableEq, Repr

def PointLight.new (pos inte : Tuple) : PointLight := ⟨inte, pos⟩

/-- `Material` from src/material.rs. -/
structure Material where
  color : Tuple
  ambient : ℚ
  diffuse : ℚ
  specular : ℚ
  shininess : ℚ
deriving DecidableEq, Repr

namespace Material

/-- `Material::new`: the default material. -/
def new : Material := ⟨Tuple.color 1 1 1, 0.1, 0.9, 0.9, 200⟩

/-- `f64::powf` restricted to integer exponents, the only exponents the
repository's materials use (`shininess` is 0.0 or 200.0): `x^(y.num)`.
In particular `powf x 0 = 1`, matching `f64::powf` exactly. -/
def powf (x y : ℚ) : ℚ := x ^ y.num

/-- `Material::lightning` from src/material.rs (Phong illumination). -/
def lightning (sq : ℚ → ℚ) (m : Material) (light : PointLight)
    (point eyev normalv : Tuple) : Tuple :=
  let effective_color := m.color.hadamard light.intensity
  let lightv := (light.position - point).normalize sq
  let ambient := effective_color.smul m.ambient
  let light_dot_normal := lightv.dot normalv
  if light_dot_normal < 0 then
    ambient + Tuple.color 0 0 0 + Tuple.color 0 0 0
  else
    let diffuse := ((effective_color.smul m.diffuse).smul light_dot_normal)
    let reflectv := reflect (-lightv) normalv
    let reflect_dot_eye := reflectv.dot eyev
    if reflect_dot_eye ≤ 0 then
      ambient + diffuse + Tuple.color 0 0 0
    else
      let factor := powf reflect_dot_eye m.shininess
      ambient + diffuse + (light.intensity.smul m.specular).smul factor

end Material

/-- `Sphere` from src/sphere.rs: unit sphere with a placement transform
and a material. -/
structure Sphere where
  transform : Matrix
  material : Material
deriving DecidableEq, Repr

/-- `Sphere::new`. -/
def Sphere.new : Sphere := ⟨Matrix.identity, Material.new⟩

/-- `Intersection` from src/intersection.rs; the Rust borrow of the sphere
becomes a value. -/
structure Intersection where
  t : ℚ
  object : Sphere
deriving DecidableEq, Repr

def Intersection.new (t : ℚ) (object : Sphere) : Intersection := ⟨t, object⟩

/-- `Computations` from src/intersection.rs. -/
structure Computations where
  t : ℚ
  object : Sphere
  point : Tuple
  eyev : Tuple
  normalv : Tuple
  inside : Bool
deriving DecidableEq, Repr

namespace Sphere

/-- `Sphere::intersect` from src/sphere.rs. -/
def intersect (sq : ℚ → ℚ) (s : Sphere) (orig_ray : Ray) : List Intersection :=
  let ray := orig_ray.transform s.transform.inverse
  let sphere_to_ray := ray.origin - Tuple.point 0 0 0
  let a := ray.direction.dot ray.direction
  let b := 2 * ray.direction.dot sphere_to_ray
  let c := sphere_to_ray.dot sphere_to_ray - 1
  let discriminant := b * b - 4 * a * c
  if discriminant < 0 then []
  else
    let t1 := (-b - sq discriminant) / (2 * a)
    let t2 := (-b + sq discriminant) / (2 * a)
    [Intersection.new t1 s, Intersection.new t2 s]

/-- `Sphere::normal_at` from src/sphere.rs. -/
def normal_at (sq : ℚ → ℚ) (s : Sphere) (world_point : Tuple) : Tuple :=
  let object_point := s.transform.inverse.tuple_prod world_point
  let object_normal := object_point - Tuple.point 0 0 0
  let world_normal := s.transform.inverse.transpose.tuple_prod object_normal
  let world_normal2 := Tuple.vector world_normal.x world_normal.y world_normal.z
  world_normal2.normalize sq

end Sphere

/-- `Intersection::prepare_computations` from src/intersection.rs. -/
def Intersection.prepare_computations (sq : ℚ → ℚ) (i : Intersection) (r : Ray) :
    Computations :=
  let eyev' := -r.direction
  let rawNormal := i.object.normal_at sq (r.position i.t)
  if rawNormal.dot eyev' < 0 then
    ⟨i.t, i.object, r.position i.t, eyev', -rawNormal, true⟩
  else
    ⟨i.t, i.object, r.position i.t, eyev', rawNormal, false⟩

/-- Insert into an ascending list, after every element that compares
less-or-equal: the insertion step of a stable insertion sort. -/
def insertAsc (leB : α → α → Bool) (x : α) : List α → List α
  | [] => [x]
  | y :: ys => if leB y x then y :: insertAsc leB x ys else x :: y :: ys

/-- Stable insertion sort.  Rust's `slice::sort_by` is a stable sort; on a
total order any two stable sorts agree, so this models it faithfully. -/
def sortAsc (leB : α → α → Bool) (xs : List α) : List α :=
  xs.foldl (fun acc x => insertAsc leB x acc) []

/-- The ascending-by-`t` comparison used by `intersections` and
`World::intersect`; over ℚ, `partial_cmp` is total, so both the
`unwrap_or(Equal)` and the `unwrap` comparators reduce to this. -/
def leT (a b : Intersection) : Bool := a.t ≤ b.t

/-- `intersections` from src/intersection.rs: stable sort ascending by t. -/
def intersections (xs : List Intersection) : List Intersection :=
  sortAsc leT xs

/-- `hit` from src/intersection.rs: the first element with `t ≥ 0`, in the
order given. -/
def hit (xs : List Intersection) : Option Intersection :=
  xs.find? fun x => 0 ≤ x.t

/-- `World` from src/world.rs. -/
structure World where
  light : Option PointLight
  objects : List Sphere

namespace World

/-- `World::new`. -/
def new : World := ⟨none, []⟩

/-- The sphere `s1` of `World::default`: unit sphere with material
`color (0.8, 1.0, 0.6)`, `ambient 0.0`, `shininess 0.0`, `diffuse 0.7`,
`specular 0.2` — `ambient` and `shininess` exactly as src/world.rs sets
them (0.0, not the 0.1 / 200.0 of `Material::new`). -/
def defaultS1 : Sphere :=
  { Sphere.new with material := ⟨Tuple.color 0.8 1 0.6, 0, 0.7, 0.2, 0⟩ }

/-- The sphere `s2` of `World::default`: sphere scaled by 0.5. -/
def defaultS2 : Sphere := { Sphere.new with transform := scaling 0.5 0.5 0.5 }

/-- `World::default`: the two-sphere world, exactly as src/world.rs
constructs it. -/
def default : World :=
  ⟨some (PointLight.new (Tuple.point (-10) 10 (-10)) (Tuple.color 1 1 1)),
   [defaultS1, defaultS2]⟩

/-- `World::intersect`: every sphere's intersections, concatenated in
object order, sorted ascending by t. -/
def intersect (sq : ℚ → ℚ) (w : World) (ray : Ray) : List Intersection :=
  sortAsc leT ((w.objects.map fun x => x.intersect sq ray).flatten)

/-- `World::shade_hit`: `self.light.unwrap()` panics when the light is
absent; the panic is modelled as `none`. -/
def shade_hit (sq : ℚ → ℚ) (w : World) (c : Computations) : Option Tuple :=
  w.light.map fun l => c.object.material.lightning sq l c.point c.eyev c.normalv

/-- `World::color_at` from src/world.rs. -/
def color_at (sq : ℚ → ℚ) (w : World) (r : Ray) : Option Tuple :=
  match hit (w.intersect sq r) with
  | none => some (Tuple.color 0 0 0)
  | some i => w.shade_hit sq (i.prepare_computations sq r)

end World

/-! Model for the NaN-sensitivity analysis of the two sort comparators
(src/world.rs line 55 vs. src/intersection.rs line 52).  A possibly-NaN
`f64` t-value is `Option ℚ`, with `none` playing NaN: `partial_cmp`
returns `None` exactly when a NaN is involved, which is the only source
of incomparability the claims touch.  A comparator is
`Except Unit Ordering`-valued, `.error ()` standing for the panic of
`Option::unwrap`; the sort aborts on the first comparator panic. -/

/-- `f64::partial_cmp` on possibly-NaN values: `none` on NaN. -/
def partialCmpF : Option ℚ → Option ℚ → Option Ordering
  | some a, some b => some (compare a b)
  | _, _ => none

/-- `Intersection` with a possibly-NaN t-value. -/
structure IntersectionN where
  t : Option ℚ
  object : Sphere

/-- The comparator of `World::intersect`:
`a.t.partial_cmp(&b.t).unwrap()` — panics on incomparable values. -/
def worldCmp (a b : IntersectionN) : Except Unit Ordering :=
  match partialCmpF a.t b.t with
  | some o => .ok o
  | none => .error ()

/-- The comparator of `intersections`:
`a.t.partial_cmp(&b.t).unwrap_or(Ordering::Equal)` — never panics,
incomparable values count as equal. -/
def intersectionsCmp (a b : IntersectionN) : Except Unit Ordering :=
  .ok ((partialCmpF a.t b.t).getD .eq)

/-- Insertion into an ascending list under a fallible comparator;
any comparator panic aborts. -/
def insertAscE (cmp : α → α → Except Unit Ordering) (x : α) :
    List α → Except Unit (List α)
  | [] => .ok [x]
  | y :: ys => do
    let o ← cmp y x
    if o = Ordering.gt then
      pure (x :: y :: ys)
    else do
      let zs ← insertAscE cmp x ys
      pure (y :: zs)

/-- Insertion sort under a fallible comparator: models the sort calls of
`World::intersect` and `intersections`, keeping only what the claim is
about — whether some comparison panics. -/
def sortAscE (cmp : α → α → Except Unit Ordering) :
    List α → Except Unit (List α)
  | [] => .ok []
  | x :: xs => do
    let ys ← sortAscE cmp xs
    insertAscE cmp x ys

/-! Unfolding lemmas for the `Tuple` arithmetic instances and the fuelled
determinant, used to evaluate the definitions inside proofs. -/

@[simp] lemma Tuple.add_def (a b : Tuple) :
    a + b = ⟨a.x + b.x, a.y + b.y, a.z + b.z, a.w + b.w⟩ := rfl

@[simp] lemma Tuple.sub_def (a b : Tuple) :
    a - b = ⟨a.x - b.x, a.y - b.y, a.z - b.z, a.w - b.w⟩ := rfl

@[simp] lemma Tuple.neg_def (a : Tuple) : -a = ⟨-a.x, -a.y, -a.z, -a.w⟩ := rfl

lemma Matrix.detFuel_succ (n : ℕ) (m : Matrix) :
    Matrix.detFuel (n + 1) m =
      if m.dim = 2 then
        m.entry 0 0 * m.entry 1 1 - m.entry 0 1 * m.entry 1 0
      else
        (((List.range m.dim).map fun c =>
          m.entry 0 c *
            (if 0 + c % 2 = 0 then Matrix.detFuel n (m.submatrix 0 c)
             else -(Matrix.detFuel n (m.submatrix 0 c))))).sum := rfl

lemma Tuple.dot_neg_left (a b : Tuple) : (-a).dot b = -(a.dot b) := by
  cases a; cases b; simp [Tuple.dot]; ring

lemma Matrix.identity_tuple_prod (t : Tuple) : Matrix.identity.tuple_prod t = t := by
  cases t
  simp [Matrix.tuple_prod, Matrix.identity, Matrix.entry, Matrix.from_vector, List.getD]

set_option maxHeartbeats 1000000 in
lemma Matrix.identity_inverse : Matrix.identity.inverse = Matrix.identity := by
  simp [Matrix.inverse, Matrix.cofactorSpec, Matrix.minor, Matrix.det, Matrix.detFuel_succ,
    Matrix.submatrix, Matrix.entry, Matrix.from_vector, Matrix.identity, List.range_succ,
    List.getD]

lemma Matrix.identity_invertible : Matrix.identity.invertible := by
  intro t
  rw [Matrix.identity_inverse, Matrix.identity_tuple_prod, Matrix.identity_tuple_prod]

set_option maxHeartbeats 1000000 in
lemma scaling_half_inverse : (scaling 0.5 0.5 0.5).inverse = scaling 2 2 2 := by
  simp [Matrix.inverse, Matrix.cofactorSpec, Matrix.minor, Matrix.det, Matrix.detFuel_succ,
    Matrix.submatrix, Matrix.entry, Matrix.from_vector, scaling, List.range_succ,
    List.getD]
  norm_num

lemma hit_cons (x : Intersection) (xs : List Intersection) :
    hit (x :: xs) = if 0 ≤ x.t then some x else hit xs := by
  by_cases h : 0 ≤ x.t
  · simp [hit, List.find?_cons_of_pos, h]
  · simp only [hit]
    rw [List.find?_cons_of_neg _ (by simpa using h)]
    simp [h]

/-- C1: the spec states `cofactor(row, col)` is the minor with checkerboard
sign `(−1)^(row+col)`.  The code (src/matrix.rs line 76) tests
`row + col % 2 == 0`, i.e. `row + (col % 2) == 0`; at the 3×3 matrix of the
repo's own cofactor test, row 1 col 1 has even `row+col`, so the claim's
sign is `+`, yet the code negates: `cofactor 1 1 = −15 ≠ (−1)^(1+1) · 15`. -/
theorem c1_cofactor_sign_defect :
    (RayTracer.Matrix.from_vector 3 [3, 5, 0, 2, -1, -7, 6, -1, 5]).minor 1 1 = 15 ∧
    (RayTracer.Matrix.from_vector 3 [3, 5, 0, 2, -1, -7, 6, -1, 5]).cofactor 1 1 = -15 ∧
    (RayTracer.Matrix.from_vector 3 [3, 5, 0, 2, -1, -7, 6, -1, 5]).cofactor 1 1 ≠
      (-1 : ℚ) ^ (1 + 1) *
        (RayTracer.Matrix.from_vector 3 [3, 5, 0, 2, -1, -7, 6, -1, 5]).minor 1 1 := by
  have hm : (RayTracer.Matrix.from_vector 3 [3, 5, 0, 2, -1, -7, 6, -1, 5]).minor 1 1 = 15 := by
    simp [Matrix.minor, Matrix.det, Matrix.detFuel_succ, Matrix.submatrix,
      Matrix.entry, Matrix.from_vector, List.range_succ, List.getD]
    norm_num
  have hc : (RayTracer.Matrix.from_vector 3 [3, 5, 0, 2, -1, -7, 6, -1, 5]).cofactor 1 1 = -15 := by
    rw [Matrix.cofactor, if_neg (by norm_num), hm]
  refine ⟨hm, hc, ?_⟩
  rw [hc, hm]
  norm_num

/-- C8: `World::shade_hit` on a world whose light is absent fails
(`self.light.unwrap()` panics, modelled as `none`); it never substitutes a
default color. -/
theorem c8_shade_hit_requires_light (sq : ℚ → ℚ) (w : World) (c : Computations)
    (h : w.light = none) :
    w.shade_hit sq c = none := by
  simp [World.shade_hit, h]

/-- Witness for C8: the lightless `World::new` with a concrete
computations record. -/
theorem c8_shade_hit_requires_light_witness :
    World.new.shade_hit sqrtQ
      ⟨4, Sphere.new, Tuple.point 0 0 (-1), Tuple.vector 0 0 (-1),
        Tuple.vector 0 0 (-1), false⟩ = none :=
  c8_shade_hit_requires_light sqrtQ World.new _ rfl

/-- C4: on a list sorted ascending by t, `hit` returns the element with the
smallest non-negative t (the first with `t ≥ 0`), and `none` exactly when
every t is negative; in particular the sorted aggregate of t-values
[5, 7, −3, 2] yields the intersection with t = 2, and [−2, −1] yields none. -/
theorem c4_hit_on_sorted (xs : List Intersection)
    (hs : xs.Pairwise fun a b => a.t ≤ b.t) :
    (∀ y, hit xs = some y →
        y ∈ xs ∧ 0 ≤ y.t ∧ ∀ x ∈ xs, 0 ≤ x.t → y.t ≤ x.t) ∧
    (hit xs = none ↔ ∀ x ∈ xs, x.t < 0) ∧
    hit (intersections
        [⟨5, Sphere.new⟩, ⟨7, Sphere.new⟩, ⟨-3, Sphere.new⟩, ⟨2, Sphere.new⟩]) =
      some ⟨2, Sphere.new⟩ ∧
    hit (intersections [⟨-2, Sphere.new⟩, ⟨-1, Sphere.new⟩]) = none := by
  refine ⟨?_, ?_, ?_, ?_⟩
  · induction xs with
    | nil => simp [hit]
    | cons z zs ih =>
      intro y hy
      rw [hit_cons] at hy
      by_cases hz : 0 ≤ z.t
      · rw [if_pos hz] at hy
        cases hy
        refine ⟨List.mem_cons_self z zs, hz, ?_⟩
        intro x hx _
        rcases List.mem_cons.mp hx with h | h
        · exact h ▸ le_refl _
        · exact (List.pairwise_cons.mp hs).1 x h
      · rw [if_neg hz] at hy
        obtain ⟨hmem, hnn, hmin⟩ := ih (List.pairwise_cons.mp hs).2 y hy
        refine ⟨List.mem_cons_of_mem z hmem, hnn, ?_⟩
        intro x hx hxt
        rcases List.mem_cons.mp hx with h | h
        · exact absurd (h ▸ hxt) hz
        · exact hmin x h hxt
  · simp [hit, List.find?_eq_none, not_le]
  · norm_num [intersections, sortAsc, insertAsc, leT, hit_cons]
  · norm_num [intersections, sortAsc, insertAsc, leT, hit_cons, hit]

/-- Witness for C4: the sorted list of t-values [−3, 2, 5, 7]. -/
theorem c4_hit_on_sorted_witness :
    hit [⟨-3, Sphere.new⟩, ⟨2, Sphere.new⟩, ⟨5, Sphere.new⟩, ⟨7, Sphere.new⟩] =
        none ↔
      ∀ x ∈ [(⟨-3, Sphere.new⟩ : Intersection), ⟨2, Sphere.new⟩, ⟨5, Sphere.new⟩,
          ⟨7, Sphere.new⟩], x.t < 0 :=
  (c4_hit_on_sorted
    [⟨-3, Sphere.new⟩, ⟨2, Sphere.new⟩, ⟨5, Sphere.new⟩, ⟨7, Sphere.new⟩]
    (by norm_num)).2.1

/-- C9: `hit` does no sorting — it returns the first element with `t ≥ 0`
in the order given — so on the unsorted t-values [7, 2] it returns the
intersection with t = 7 although t = 2 is the smallest non-negative. -/
theorem c9_hit_takes_first_in_given_order :
    (∀ (x : Intersection) (xs : List Intersection),
        hit (x :: xs) = if 0 ≤ x.t then some x else hit xs) ∧
    hit [⟨7, Sphere.new⟩, ⟨2, Sphere.new⟩] = some ⟨7, Sphere.new⟩ ∧
    (0 : ℚ) ≤ 2 ∧ (2 : ℚ) < 7 := by
  refine ⟨hit_cons, ?_, by norm_num, by norm_num⟩
  norm_num [hit_cons]

lemma Tuple.dot_self_pos (t : Tuple) (h : t ≠ ⟨0, 0, 0, 0⟩) : 0 < t.dot t := by
  rcases t with ⟨x, y, z, w⟩
  have h2 : ¬(x = 0 ∧ y = 0 ∧ z = 0 ∧ w = 0) := by
    intro ⟨e1, e2, e3, e4⟩
    exact h (by rw [e1, e2, e3, e4])
  simp only [Tuple.dot]
  rcases lt_or_le 0 (x * x + y * y + z * z + w * w) with hp | hle
  · exact hp
  · exfalso
    have h1 : x * x ≤ 0 := by nlinarith [mul_self_nonneg y, mul_self_nonneg z, mul_self_nonneg w]
    have hy : y * y ≤ 0 := by nlinarith [mul_self_nonneg x, mul_self_nonneg z, mul_self_nonneg w]
    have hz : z * z ≤ 0 := by nlinarith [mul_self_nonneg x, mul_self_nonneg y, mul_self_nonneg w]
    have hw' : w * w ≤ 0 := by nlinarith [mul_self_nonneg x, mul_self_nonneg y, mul_self_nonneg z]
    exact h2 ⟨mul_self_eq_zero.mp (le_antisymm h1 (mul_self_nonneg x)),
      mul_self_eq_zero.mp (le_antisymm hy (mul_self_nonneg y)),
      mul_self_eq_zero.mp (le_antisymm hz (mul_self_nonneg z)),
      mul_self_eq_zero.mp (le_antisymm hw' (mul_self_nonneg w))⟩

lemma Matrix.tuple_prod_zero (m : Matrix) : m.tuple_prod ⟨0, 0, 0, 0⟩ = ⟨0, 0, 0, 0⟩ := by
  simp [Matrix.tuple_prod]

lemma quadratic_root_formula (A B C S : ℚ) (hA : A ≠ 0)
    (hS : S * S = B * B - 4 * A * C) :
    A * ((-B - S) / (2 * A)) ^ 2 + B * ((-B - S) / (2 * A)) + C = 0 ∧
    A * ((-B + S) / (2 * A)) ^ 2 + B * ((-B + S) / (2 * A)) + C = 0 := by
  constructor <;>
  · field_simp
    linear_combination (2 * A ^ 2) * hS

/-- C3: for a sphere with invertible transform and a ray with nonzero
vector direction, `intersect` is empty exactly when the object-space
discriminant `b²−4ac` is negative; otherwise it is exactly the two records
`[t1, t2]` with `t1 ≤ t2` (kept even when equal), both quadratic roots,
each referencing the sphere.  In particular, for the untransformed unit
sphere, the ray from (0,0,−5) toward +z gives t = [4, 6], the tangent ray
from (0,1,−5) gives [5, 5], and the ray from (0,2,−5) gives []. -/
theorem c3_sphere_intersect_roots (sq : ℚ → ℚ) (s : Sphere) (r : Ray)
    (hinv : s.transform.invertible) (hw : r.direction.w = 0)
    (hnz : r.direction ≠ ⟨0, 0, 0, 0⟩) :
    let ray := r.transform s.transform.inverse
    let str := ray.origin - Tuple.point 0 0 0
    let a := ray.direction.dot ray.direction
    let b := 2 * ray.direction.dot str
    let c := str.dot str - 1
    let disc := b * b - 4 * a * c
    (0 ≤ disc → 0 ≤ sq disc ∧ sq disc * sq disc = disc) →
    ((s.intersect sq r = [] ↔ disc < 0) ∧
     (0 ≤ disc →
       s.intersect sq r =
         [⟨(-b - sq disc) / (2 * a), s⟩, ⟨(-b + sq disc) / (2 * a), s⟩] ∧
       (-b - sq disc) / (2 * a) ≤ (-b + sq disc) / (2 * a) ∧
       a * ((-b - sq disc) / (2 * a)) ^ 2 + b * ((-b - sq disc) / (2 * a)) + c = 0 ∧
       a * ((-b + sq disc) / (2 * a)) ^ 2 + b * ((-b + sq disc) / (2 * a)) + c = 0)) ∧
    Sphere.new.intersect sqrtQ ⟨Tuple.point 0 0 (-5), Tuple.vector 0 0 1⟩ =
      [⟨4, Sphere.new⟩, ⟨6, Sphere.new⟩] ∧
    Sphere.new.intersect sqrtQ ⟨Tuple.point 0 1 (-5), Tuple.vector 0 0 1⟩ =
      [⟨5, Sphere.new⟩, ⟨5, Sphere.new⟩] ∧
    Sphere.new.intersect sqrtQ ⟨Tuple.point 0 2 (-5), Tuple.vector 0 0 1⟩ = [] := by
  intro ray str a b c disc hsq
  have hSnew : Sphere.new.transform.inverse = Matrix.identity := by
    rw [show Sphere.new.transform = Matrix.identity from rfl, Matrix.identity_inverse]
  refine ⟨?_, ?_, ?_, ?_⟩
  case refine_2 =>
    simp only [Sphere.intersect, hSnew]
    norm_num [Ray.transform, Matrix.identity_tuple_prod, Tuple.dot, Tuple.point,
      Tuple.vector, Intersection.new, sqrtQ]
  case refine_3 =>
    simp only [Sphere.intersect, hSnew]
    norm_num [Ray.transform, Matrix.identity_tuple_prod, Tuple.dot, Tuple.point,
      Tuple.vector, Intersection.new, sqrtQ]
  case refine_4 =>
    simp only [Sphere.intersect, hSnew]
    norm_num [Ray.transform, Matrix.identity_tuple_prod, Tuple.dot, Tuple.point,
      Tuple.vector, Intersection.new, sqrtQ]
  have hdnz : ray.direction ≠ ⟨0, 0, 0, 0⟩ := by
    intro h0
    apply hnz
    have h1 := hinv r.direction
    rw [show s.transform.inverse.tuple_prod r.direction = ray.direction from rfl, h0,
      Matrix.tuple_prod_zero] at h1
    exact h1.symm
  have hA : 0 < a := Tuple.dot_self_pos ray.direction hdnz
  have key : s.intersect sq r =
      if disc < 0 then []
      else [⟨(-b - sq disc) / (2 * a), s⟩, ⟨(-b + sq disc) / (2 * a), s⟩] := rfl
  constructor
  · rw [key]
    split_ifs with h <;> simp [h]
  · intro hge
    obtain ⟨hs0, hs2⟩ := hsq hge
    have h2a : (0 : ℚ) < 2 * a := by linarith
    obtain ⟨hr1, hr2⟩ := quadratic_root_formula a b c (sq disc) (ne_of_gt hA) hs2
    refine ⟨by rw [key, if_neg (not_lt.mpr hge)], ?_, hr1, hr2⟩
    rw [div_le_div_iff_of_pos_right h2a]
    linarith

/-- Witness for C3: the unit sphere and the ray from (0,0,−5) toward +z
(discriminant 4, `sqrtQ 4 = 2`). -/
theorem c3_sphere_intersect_roots_witness :
    Sphere.new.intersect sqrtQ ⟨Tuple.point 0 0 (-5), Tuple.vector 0 0 1⟩ =
      [⟨4, Sphere.new⟩, ⟨6, Sphere.new⟩] :=
  (c3_sphere_intersect_roots sqrtQ Sphere.new
    ⟨Tuple.point 0 0 (-5), Tuple.vector 0 0 1⟩
    Matrix.identity_invertible rfl (by norm_num [Tuple.vector])
    (by norm_num [Sphere.new, Matrix.identity_inverse, Ray.transform,
      Matrix.identity_tuple_prod, Tuple.dot, Tuple.point, Tuple.vector, sqrtQ])).2.1

lemma insertAscE_world_ok (x : IntersectionN) (hx : x.t ≠ none)
    (ys : List IntersectionN) (hys : ∀ y ∈ ys, y.t ≠ none) :
    ∃ zs, insertAscE worldCmp x ys = .ok zs ∧ ∀ z ∈ zs, z.t ≠ none := by
  induction ys with
  | nil => exact ⟨[x], rfl, by simpa using hx⟩
  | cons y ys ih =>
    have hy : y.t ≠ none := hys y (by simp)
    obtain ⟨a, ha⟩ := Option.ne_none_iff_exists'.mp hy
    obtain ⟨b, hb⟩ := Option.ne_none_iff_exists'.mp hx
    have hcmp : worldCmp y x = .ok (compare a b) := by
      simp [worldCmp, partialCmpF, ha, hb]
    by_cases hgt : compare a b = Ordering.gt
    · refine ⟨x :: y :: ys, by simp [insertAscE, hcmp, hgt, Bind.bind, Except.bind, pure, Except.pure], ?_⟩
      intro z hz
      rcases List.mem_cons.mp hz with h | h
      · exact h ▸ hx
      · exact hys z h
    · obtain ⟨zs, hzs, hmem⟩ := ih fun u hu => hys u (List.mem_cons_of_mem y hu)
      refine ⟨y :: zs, by simp [insertAscE, hcmp, hgt, hzs, Bind.bind, Except.bind, pure, Except.pure], ?_⟩
      intro z hz
      rcases List.mem_cons.mp hz with h | h
      · exact h ▸ hy
      · exact hmem z h

lemma sortAscE_world_ok (xs : List IntersectionN) (h : ∀ x ∈ xs, x.t ≠ none) :
    ∃ ys, sortAscE worldCmp xs = .ok ys ∧ ∀ y ∈ ys, y.t ≠ none := by
  induction xs with
  | nil => exact ⟨[], rfl, by simp⟩
  | cons x xs ih =>
    obtain ⟨ys, hys, hmem⟩ := ih fun u hu => h u (List.mem_cons_of_mem x hu)
    obtain ⟨zs, hzs, hzmem⟩ :=
      insertAscE_world_ok x (h x (List.mem_cons_self x xs)) ys hmem
    exact ⟨zs, by simp [sortAscE, hys, hzs, Bind.bind, Except.bind], hzmem⟩

lemma insertAscE_inter_ok (x : IntersectionN) (ys : List IntersectionN) :
    ∃ zs, insertAscE intersectionsCmp x ys = .ok zs := by
  induction ys with
  | nil => exact ⟨[x], rfl⟩
  | cons y ys ih =>
    by_cases hgt : (partialCmpF y.t x.t).getD Ordering.eq = Ordering.gt
    · exact ⟨x :: y :: ys, by simp [insertAscE, intersectionsCmp, hgt, Bind.bind, Except.bind, pure, Except.pure]⟩
    · obtain ⟨zs, hzs⟩ := ih
      exact ⟨y :: zs, by simp [insertAscE, intersectionsCmp, hgt, hzs, Bind.bind, Except.bind, pure, Except.pure]⟩

lemma sortAscE_inter_ok (xs : List IntersectionN) :
    ∃ ys, sortAscE intersectionsCmp xs = .ok ys := by
  induction xs with
  | nil => exact ⟨[], rfl⟩
  | cons x xs ih =>
    obtain ⟨ys, hys⟩ := ih
    obtain ⟨zs, hzs⟩ := insertAscE_inter_ok x ys
    exact ⟨zs, by simp [sortAscE, hys, hzs, Bind.bind, Except.bind]⟩

/-- C10: the comparator of `World::intersect` unwraps `partial_cmp`, but
its panic branch is unreachable when every t-value is non-NaN (the whole
sort succeeds); the comparator of `intersections` maps incomparable (NaN)
t-values to `Equal` and the sort never panics on any input. -/
theorem c10_sort_comparator_panic_analysis (xs : List IntersectionN)
    (h : ∀ x ∈ xs, x.t ≠ none) :
    (∃ ys, sortAscE worldCmp xs = .ok ys) ∧
    (∀ zs : List IntersectionN, ∃ ys, sortAscE intersectionsCmp zs = .ok ys) ∧
    (∀ a b : IntersectionN, a.t = none ∨ b.t = none →
      intersectionsCmp a b = .ok Ordering.eq) := by
  refine ⟨?_, sortAscE_inter_ok, ?_⟩
  · obtain ⟨ys, hys, -⟩ := sortAscE_world_ok xs h
    exact ⟨ys, hys⟩
  · intro a b hab
    rcases hab with hn | hn
    · rcases hb : b.t with _ | v <;> simp [intersectionsCmp, partialCmpF, hn, hb]
    · rcases ha : a.t with _ | v <;> simp [intersectionsCmp, partialCmpF, hn, ha]

/-- Witness for C10: a two-element non-NaN list. -/
theorem c10_sort_comparator_panic_analysis_witness :
    ∃ ys, sortAscE worldCmp
        [⟨some 2, Sphere.new⟩, ⟨some 1, Sphere.new⟩] = .ok ys :=
  (c10_sort_comparator_panic_analysis
    [⟨some 2, Sphere.new⟩, ⟨some 1, Sphere.new⟩] (by simp)).1

/-- C6: the computations record of `prepare_computations` always has
`normalv · eyev ≥ 0`; `inside` is set and the normal negated exactly when
the raw surface normal at the hit point has negative dot product with the
eye vector, and the normal is unchanged with `inside = false` otherwise. -/
theorem c6_prepare_computations_normal_faces_eye (sq : ℚ → ℚ) (i : Intersection)
    (r : Ray) (hinv : i.object.transform.invertible) :
    0 ≤ (i.prepare_computations sq r).normalv.dot (i.prepare_computations sq r).eyev ∧
    (i.prepare_computations sq r).eyev = -r.direction ∧
    ((i.object.normal_at sq (r.position i.t)).dot (-r.direction) < 0 →
      (i.prepare_computations sq r).inside = true ∧
      (i.prepare_computations sq r).normalv =
        -(i.object.normal_at sq (r.position i.t))) ∧
    (0 ≤ (i.object.normal_at sq (r.position i.t)).dot (-r.direction) →
      (i.prepare_computations sq r).inside = false ∧
      (i.prepare_computations sq r).normalv =
        i.object.normal_at sq (r.position i.t)) := by
  have hc : i.prepare_computations sq r =
      if (i.object.normal_at sq (r.position i.t)).dot (-r.direction) < 0 then
        ⟨i.t, i.object, r.position i.t, -r.direction,
          -(i.object.normal_at sq (r.position i.t)), true⟩
      else
        ⟨i.t, i.object, r.position i.t, -r.direction,
          i.object.normal_at sq (r.position i.t), false⟩ := rfl
  by_cases h : (i.object.normal_at sq (r.position i.t)).dot (-r.direction) < 0
  · rw [hc, if_pos h]
    refine ⟨?_, rfl, fun _ => ⟨rfl, rfl⟩, fun hle => absurd h (not_lt.mpr hle)⟩
    rw [Tuple.dot_neg_left]
    linarith
  · rw [hc, if_neg h]
    exact ⟨not_lt.mp h, rfl, fun hlt => absurd hlt h, fun _ => ⟨rfl, rfl⟩⟩

/-- Witness for C6: the unit sphere, the ray from (0,0,−5) toward +z, at
t = 4 (the repo's `precomputing_state_of_intersection` test data). -/
theorem c6_prepare_computations_normal_faces_eye_witness :
    0 ≤ ((Intersection.mk 4 Sphere.new).prepare_computations sqrtQ
          ⟨Tuple.point 0 0 (-5), Tuple.vector 0 0 1⟩).normalv.dot
        ((Intersection.mk 4 Sphere.new).prepare_computations sqrtQ
          ⟨Tuple.point 0 0 (-5), Tuple.vector 0 0 1⟩).eyev :=
  (c6_prepare_computations_normal_faces_eye sqrtQ ⟨4, Sphere.new⟩
    ⟨Tuple.point 0 0 (-5), Tuple.vector 0 0 1⟩ Matrix.identity_invertible).1

/-- C7: when the normalized direction from the surface point to the light
has negative dot product with the normal (light behind the surface),
`lightning` returns exactly the ambient term — effective color scaled by
`material.ambient` — with no diffuse or specular contribution; in
particular the default material with white light at (0,0,10), point at the
origin, eye = normal = (0,0,−1) gives ≈ (0.1, 0.1, 0.1). -/
theorem c7_lightning_light_behind_surface (sq : ℚ → ℚ) (m : Material)
    (light : PointLight) (point eyev normalv : Tuple)
    (h : ((light.position - point).normalize sq).dot normalv < 0) :
    m.lightning sq light point eyev normalv =
      (m.color.hadamard light.intensity).smul m.ambient ∧
    (Material.new.lightning sqrtQ
        (PointLight.new (Tuple.point 0 0 10) (Tuple.color 1 1 1))
        (Tuple.point 0 0 0) (Tuple.vector 0 0 (-1)) (Tuple.vector 0 0 (-1))).approx
      (Tuple.color 0.1 0.1 0.1) := by
  constructor
  · have e : m.lightning sq light point eyev normalv =
        (m.color.hadamard light.intensity).smul m.ambient +
          Tuple.color 0 0 0 + Tuple.color 0 0 0 := by
      unfold Material.lightning
      rw [if_pos h]
    rw [e]
    simp [Tuple.color]
  · norm_num [Material.lightning, Material.new, PointLight.new, Tuple.normalize,
      Tuple.magnitude, sqrtQ, Tuple.dot, Tuple.point, Tuple.vector, Tuple.color,
      Tuple.hadamard, Tuple.smul, Tuple.approx]

/-- Witness for C7: the repo's `lightning_with_light_behind_surface` test
inputs — default material, light at (0,0,10), point at the origin. -/
theorem c7_lightning_light_behind_surface_witness :
    Material.new.lightning sqrtQ
        (PointLight.new (Tuple.point 0 0 10) (Tuple.color 1 1 1))
        (Tuple.point 0 0 0) (Tuple.vector 0 0 (-1)) (Tuple.vector 0 0 (-1)) =
      (Material.new.color.hadamard (Tuple.color 1 1 1)).smul Material.new.ambient :=
  (c7_lightning_light_behind_surface sqrtQ Material.new
    (PointLight.new (Tuple.point 0 0 10) (Tuple.color 1 1 1))
    (Tuple.point 0 0 0) (Tuple.vector 0 0 (-1)) (Tuple.vector 0 0 (-1))
    (by norm_num [PointLight.new, Tuple.normalize, Tuple.magnitude, sqrtQ,
      Tuple.dot, Tuple.point, Tuple.vector])).1

lemma Material.powf_zero (x : ℚ) : Material.powf x 0 = 1 := by
  simp [Material.powf]

lemma Matrix.identity_transpose : Matrix.identity.transpose = Matrix.identity := by
  simp [Matrix.transpose, Matrix.identity, Matrix.entry, Matrix.from_vector,
    List.range_succ, List.getD]

lemma lightning_both_branches_pos (sq : ℚ → ℚ) (m : Material) (light : PointLight)
    (P E N : Tuple)
    (hldn : 0 ≤ ((light.position - P).normalize sq).dot N)
    (hrde : 0 < (reflect (-((light.position - P).normalize sq)) N).dot E) :
    m.lightning sq light P E N =
      (m.color.hadamard light.intensity).smul m.ambient +
      ((m.color.hadamard light.intensity).smul m.diffuse).smul
        (((light.position - P).normalize sq).dot N) +
      (light.intensity.smul m.specular).smul
        (Material.powf ((reflect (-((light.position - P).normalize sq)) N).dot E)
          m.shininess) := by
  unfold Material.lightning
  rw [if_neg (not_lt.mpr hldn), if_neg (not_le.mpr hrde)]

/-- C2: on the default two-sphere world as src/world.rs builds it
(`ambient = 0.0`, `shininess = 0.0` on s1's material), `color_at` of the
ray from (0,0,−5) toward +z returns the color
`(5.04/√281 + 0.2, 6.3/√281 + 0.2, 3.78/√281 + 0.2)` ≈
(0.50066, 0.57583, 0.42550), which is NOT within the 1e-5 tolerance of the
claimed (0.38066, 0.47583, 0.2855) — the value the repo's own
`color_when_ray_hits` test also asserts.  The hypotheses pin the
square-root function at the three perfect squares the pipeline hits and
bracket √281 (≈ 16.76305) between 16 and 17; the conclusion holds for
every such `sq`, in particular for the real square root. -/
theorem c2_color_at_default_world (sq : ℚ → ℚ)
    (h4 : sq 4 = 2) (h16 : sq 16 = 4) (h1 : sq 1 = 1)
    (hlo : 16 ≤ sq 281) (hhi : sq 281 ≤ 17) :
    ∃ c : Tuple,
      World.default.color_at sq ⟨Tuple.point 0 0 (-5), Tuple.vector 0 0 1⟩ = some c ∧
      c.x = 5.04 / sq 281 + 0.2 ∧
      ¬ c.approx (Tuple.color 0.38066 0.47583 0.2855) := by
  have hm : (0 : ℚ) < sq 281 := lt_of_lt_of_le (by norm_num) hlo
  have hs1inv : World.defaultS1.transform.inverse = Matrix.identity := by
    rw [show World.defaultS1.transform = Matrix.identity from rfl, Matrix.identity_inverse]
  have hs2inv : World.defaultS2.transform.inverse = scaling 2 2 2 := by
    rw [show World.defaultS2.transform = scaling 0.5 0.5 0.5 from rfl, scaling_half_inverse]
  have hi1 : World.defaultS1.intersect sq ⟨Tuple.point 0 0 (-5), Tuple.vector 0 0 1⟩ =
      [⟨4, World.defaultS1⟩, ⟨6, World.defaultS1⟩] := by
    simp only [Sphere.intersect, hs1inv]
    norm_num [Ray.transform, Matrix.identity_tuple_prod, Tuple.dot, Tuple.point,
      Tuple.vector, Intersection.new, h4]
  have hi2 : World.defaultS2.intersect sq ⟨Tuple.point 0 0 (-5), Tuple.vector 0 0 1⟩ =
      [⟨9/2, World.defaultS2⟩, ⟨11/2, World.defaultS2⟩] := by
    simp only [Sphere.intersect, hs2inv]
    norm_num [Ray.transform, Matrix.tuple_prod, Matrix.entry, scaling,
      Matrix.from_vector, List.getD, Tuple.dot, Tuple.point, Tuple.vector,
      Intersection.new, h16]
  have hwint : World.default.intersect sq ⟨Tuple.point 0 0 (-5), Tuple.vector 0 0 1⟩ =
      [⟨4, World.defaultS1⟩, ⟨9/2, World.defaultS2⟩, ⟨11/2, World.defaultS2⟩, ⟨6, World.defaultS1⟩] := by
    simp only [World.intersect, World.default, List.map_cons, List.map_nil, hi1, hi2]
    norm_num [sortAsc, insertAsc, leT]
  have hhit : hit [⟨4, World.defaultS1⟩, ⟨9/2, World.defaultS2⟩, ⟨11/2, World.defaultS2⟩,
      ⟨6, World.defaultS1⟩] = some ⟨4, World.defaultS1⟩ := by
    norm_num [hit_cons]
  have hpos : (⟨Tuple.point 0 0 (-5), Tuple.vector 0 0 1⟩ : Ray).position 4 =
      Tuple.point 0 0 (-1) := by
    norm_num [Ray.position, Tuple.smul, Tuple.point, Tuple.vector]
  have hnorm : World.defaultS1.normal_at sq (Tuple.point 0 0 (-1)) = ⟨0, 0, -1, 0⟩ := by
    simp only [Sphere.normal_at, hs1inv, Matrix.identity_transpose]
    norm_num [Matrix.identity_tuple_prod, Tuple.point, Tuple.vector, Tuple.normalize,
      Tuple.magnitude, h1]
  have hc : Intersection.prepare_computations sq ⟨4, World.defaultS1⟩
      ⟨Tuple.point 0 0 (-5), Tuple.vector 0 0 1⟩ =
      if (World.defaultS1.normal_at sq
            ((⟨Tuple.point 0 0 (-5), Tuple.vector 0 0 1⟩ : Ray).position 4)).dot
          (-(Tuple.vector 0 0 1)) < 0 then
        ⟨4, World.defaultS1,
          (⟨Tuple.point 0 0 (-5), Tuple.vector 0 0 1⟩ : Ray).position 4,
          -(Tuple.vector 0 0 1),
          -(World.defaultS1.normal_at sq
            ((⟨Tuple.point 0 0 (-5), Tuple.vector 0 0 1⟩ : Ray).position 4)), true⟩
      else
        ⟨4, World.defaultS1,
          (⟨Tuple.point 0 0 (-5), Tuple.vector 0 0 1⟩ : Ray).position 4,
          -(Tuple.vector 0 0 1),
          World.defaultS1.normal_at sq
            ((⟨Tuple.point 0 0 (-5), Tuple.vector 0 0 1⟩ : Ray).position 4), false⟩ := rfl
  have hprep : Intersection.prepare_computations sq ⟨4, World.defaultS1⟩
      ⟨Tuple.point 0 0 (-5), Tuple.vector 0 0 1⟩ =
      ⟨4, World.defaultS1, Tuple.point 0 0 (-1), ⟨0, 0, -1, 0⟩, ⟨0, 0, -1, 0⟩, false⟩ := by
    rw [hc, hpos, hnorm]
    norm_num [Tuple.dot, Tuple.vector]
  have hcol : World.default.color_at sq ⟨Tuple.point 0 0 (-5), Tuple.vector 0 0 1⟩ =
      some (World.defaultS1.material.lightning sq
        (PointLight.new (Tuple.point (-10) 10 (-10)) (Tuple.color 1 1 1))
        (Tuple.point 0 0 (-1)) ⟨0, 0, -1, 0⟩ ⟨0, 0, -1, 0⟩) := by
    simp only [World.color_at, hwint, hhit, hprep, World.shade_hit]
    simp [World.default]
  have hlv : (PointLight.new (Tuple.point (-10) 10 (-10)) (Tuple.color 1 1 1)).position -
      Tuple.point 0 0 (-1) = ⟨-10, 10, -9, 0⟩ := by
    norm_num [PointLight.new, Tuple.point]
  have hnormv : Tuple.normalize sq ⟨-10, 10, -9, 0⟩ =
      ⟨-10 / sq 281, 10 / sq 281, -9 / sq 281, 0⟩ := by
    norm_num [Tuple.normalize, Tuple.magnitude]
  have hldn : (⟨-10 / sq 281, 10 / sq 281, -9 / sq 281, 0⟩ : Tuple).dot ⟨0, 0, -1, 0⟩ =
      9 / sq 281 := by
    norm_num [Tuple.dot]
    ring
  have hrefl : reflect (-(⟨-10 / sq 281, 10 / sq 281, -9 / sq 281, 0⟩ : Tuple))
      ⟨0, 0, -1, 0⟩ = ⟨10 / sq 281, -10 / sq 281, -9 / sq 281, 0⟩ := by
    simp only [reflect, Tuple.smul, Tuple.dot, Tuple.sub_def, Tuple.neg_def, Tuple.mk.injEq]
    norm_num
    refine ⟨?_, ?_, ?_⟩ <;> first | trivial | ring
  have hrde : (⟨10 / sq 281, -10 / sq 281, -9 / sq 281, 0⟩ : Tuple).dot ⟨0, 0, -1, 0⟩ =
      9 / sq 281 := by
    norm_num [Tuple.dot]
    ring
  have h9pos : (0 : ℚ) < 9 / sq 281 := div_pos (by norm_num) hm
  have hlight : World.defaultS1.material.lightning sq
      (PointLight.new (Tuple.point (-10) 10 (-10)) (Tuple.color 1 1 1))
      (Tuple.point 0 0 (-1)) ⟨0, 0, -1, 0⟩ ⟨0, 0, -1, 0⟩ =
      ⟨5.04 / sq 281 + 0.2, 6.3 / sq 281 + 0.2, 3.78 / sq 281 + 0.2, 0⟩ := by
    rw [lightning_both_branches_pos sq _ _ _ _ _
      (by rw [hlv, hnormv, hldn]; exact le_of_lt h9pos)
      (by rw [hlv, hnormv, hrefl, hrde]; exact h9pos)]
    rw [hlv, hnormv, hldn, hrefl, hrde]
    norm_num [World.defaultS1, Sphere.new, PointLight.new, Tuple.hadamard, Tuple.smul,
      Tuple.color, Material.powf_zero, Tuple.mk.injEq]
    refine ⟨?_, ?_, ?_⟩ <;> ring
  refine ⟨⟨5.04 / sq 281 + 0.2, 6.3 / sq 281 + 0.2, 3.78 / sq 281 + 0.2, 0⟩,
    by rw [hcol, hlight], by norm_num, ?_⟩
  intro habs
  obtain ⟨hx, -, -, -⟩ := habs
  simp only [Tuple.color] at hx
  rw [abs_lt] at hx
  have hb : (5.04 : ℚ) / 17 ≤ 5.04 / sq 281 := by
    rw [div_le_div_iff₀ (by norm_num) hm]
    have := mul_le_mul_of_nonneg_left hhi (by norm_num : (0 : ℚ) ≤ 5.04)
    linarith
  have := hx.2
  norm_num at this hb ⊢
  linarith

/-- Witness for C2: the square-root stand-in `sqrtQ`. -/
theorem c2_color_at_default_world_witness :
    ∃ c : Tuple,
      World.default.color_at sqrtQ ⟨Tuple.point 0 0 (-5), Tuple.vector 0 0 1⟩ = some c ∧
      c.x = 5.04 / sqrtQ 281 + 0.2 ∧
      ¬ c.approx (Tuple.color 0.38066 0.47583 0.2855) :=
  c2_color_at_default_world sqrtQ (by norm_num [sqrtQ]) (by norm_num [sqrtQ])
    (by norm_num [sqrtQ]) (by norm_num [sqrtQ]) (by norm_num [sqrtQ])

end RayTracer

/-- C5: `Matrix::det` is the mathematical determinant: `ad − bc` for every
2×2 matrix, and for every 3×3 and 4×4 matrix it agrees with Mathlib's
determinant of the corresponding matrix (the row-0 expansion uses
`0 + col % 2`, which coincides with the correct checkerboard sign on
row 0). -/
theorem c5_det_is_true_determinant :
    (∀ a b c d : ℚ,
      (RayTracer.Matrix.from_vector 2 [a, b, c, d]).det = a * d - b * c) ∧
    (∀ a b c d e f g h i : ℚ,
      (RayTracer.Matrix.from_vector 3 [a, b, c, d, e, f, g, h, i]).det =
        Matrix.det !![a, b, c; d, e, f; g, h, i]) ∧
    (∀ a b c d e f g h i j k l m n o p : ℚ,
      (RayTracer.Matrix.from_vector 4 [a, b, c, d, e, f, g, h, i, j, k, l, m, n, o, p]).det =
        Matrix.det !![a, b, c, d; e, f, g, h; i, j, k, l; m, n, o, p]) := by
  refine ⟨?_, ?_, ?_⟩
  · intro a b c d
    simp [RayTracer.Matrix.det, RayTracer.Matrix.detFuel_succ, RayTracer.Matrix.entry,
      RayTracer.Matrix.from_vector]
  · intro a b c d e f g h i
    simp [RayTracer.Matrix.det, RayTracer.Matrix.detFuel_succ, RayTracer.Matrix.entry,
      RayTracer.Matrix.from_vector, RayTracer.Matrix.submatrix, List.range_succ,
      Matrix.det_fin_three]
    ring
  · intro a b c d e f g h i j k l m n o p
    have h1 : (Fin.succAbove 2 2 : Fin 4) = 3 := rfl
    have h2 : (Fin.castSucc 2 : Fin 4) = 2 := rfl
    have h3 : (Fin.succAbove 1 2 : Fin 4) = 3 := rfl
    simp [RayTracer.Matrix.det, RayTracer.Matrix.detFuel_succ, RayTracer.Matrix.entry,
      RayTracer.Matrix.from_vector, RayTracer.Matrix.submatrix, List.range_succ,
      Matrix.det_succ_row_zero, Fin.sum_univ_succ, Matrix.det_fin_three, h1, h2, h3]
    ring
